import Mathlib

/-!
Verification of the structured-output pipeline of the resume chatbot service.

The development shallowly embeds, from the Python sources:
  * a model of `json.loads` / `json.dumps` (restricted to integer numeric
    literals; floats do not occur in any property under study),
  * the JSON-extraction fallback chain of
    `services/llm_operator.py : LLMOperator._invoke_json`
    (direct parse, then the case-insensitive non-greedy fenced-block regex,
    then the greedy brace-or-bracket span regex),
  * the pydantic validation behaviour of the response/request schemas in
    `schemas/resume_schemas.py` (field typing, defaults, the `ge`/`le`
    bounds on `AnalyzeResponse.quality`, and `ATSScoreRequest._require_one`),
  * the prompt serializer `services/prompt_builders.py : _dump`,
  * the `/chat` handler guard of `api/chat.py`,
  * the plain data class `models/resume.py : Resume`.
-/

namespace ChatbotService

/-- JSON values.  Numeric literals are modelled as integers: the pipeline and
all schema fields under study are integer-valued (`quality`, `score`,
`section_scores`), and no float literal occurs in any property examined.
Objects are ordered association lists, as delivered by the parser. -/
inductive Json where
  | null : Json
  | bool (b : Bool) : Json
  | num (n : Int) : Json
  | str (s : String) : Json
  | arr (elems : List Json) : Json
  | obj (fields : List (String × Json)) : Json

/-- JSON whitespace, as skipped by the Python `json` module: space, tab,
newline, carriage return. -/
def jsonWs (c : Char) : Bool :=
  c = ' ' || c = '\t' || c = '\n' || c = '\r'

/-- Drop leading JSON whitespace. -/
def skipWs : List Char → List Char
  | [] => []
  | c :: cs => if jsonWs c then skipWs cs else c :: cs

/-- One hex digit to its value. -/
def hexVal? (c : Char) : Option Nat :=
  if '0' ≤ c ∧ c ≤ '9' then some (c.toNat - '0'.toNat)
  else if 'a' ≤ c ∧ c ≤ 'f' then some (c.toNat - 'a'.toNat + 10)
  else if 'A' ≤ c ∧ c ≤ 'F' then some (c.toNat - 'A'.toNat + 10)
  else none

/-- Body of a JSON string literal, after the opening quote: returns the
decoded characters and the input remaining after the closing quote.
Handles the escape sequences accepted by `json.loads` and rejects raw
control characters (strict mode). -/
def parseStringBody : List Char → Option (List Char × List Char)
  | [] => none
  | '\x22' :: rest => some ([], rest)
  | '\\' :: esc =>
    match esc with
    | '\x22' :: rest => (parseStringBody rest).map fun (s, r) => ('\x22' :: s, r)
    | '\\' :: rest => (parseStringBody rest).map fun (s, r) => ('\\' :: s, r)
    | '/' :: rest => (parseStringBody rest).map fun (s, r) => ('/' :: s, r)
    | 'b' :: rest => (parseStringBody rest).map fun (s, r) => ('\x08' :: s, r)
    | 'f' :: rest => (parseStringBody rest).map fun (s, r) => ('\x0c' :: s, r)
    | 'n' :: rest => (parseStringBody rest).map fun (s, r) => ('\n' :: s, r)
    | 'r' :: rest => (parseStringBody rest).map fun (s, r) => ('\r' :: s, r)
    | 't' :: rest => (parseStringBody rest).map fun (s, r) => ('\t' :: s, r)
    | 'u' :: a :: b :: c :: d :: rest =>
      match hexVal? a, hexVal? b, hexVal? c, hexVal? d with
      | some ha, some hb, some hc, some hd =>
        let n := ((ha * 16 + hb) * 16 + hc) * 16 + hd
        if n < 0xd800 then
          (parseStringBody rest).map fun (s, r) => (Char.ofNat n :: s, r)
        else if n ≥ 0xe000 then
          (parseStringBody rest).map fun (s, r) => (Char.ofNat n :: s, r)
        else none
      | _, _, _, _ => none
    | _ => none
  | c :: rest =>
    if c.toNat < 0x20 then none
    else (parseStringBody rest).map fun (s, r) => (c :: s, r)

/-- Leading decimal digits of the input, and the remainder. -/
def spanDigits : List Char → List Char × List Char
  | [] => ([], [])
  | c :: cs =>
    if c.isDigit then
      let (ds, r) := spanDigits cs
      (c :: ds, r)
    else ([], c :: cs)

/-- Digits to a natural number. -/
def digitsToNat (ds : List Char) : Nat :=
  ds.foldl (fun acc c => acc * 10 + (c.toNat - '0'.toNat)) 0

/-- JSON integer literal: optional minus, then `0` or a nonzero-led digit
string (the grammar of `json.loads`, restricted to integers: a following
`.`, `e` or `E` — a float — is rejected by this model). -/
def parseNumber (cs : List Char) : Option (Int × List Char) :=
  let (neg, cs') :=
    match cs with
    | '-' :: rest => (true, rest)
    | _ => (false, cs)
  match spanDigits cs' with
  | ([], _) => none
  | (d :: ds, rest) =>
    if d = '0' ∧ ds ≠ [] then none
    else
      match rest with
      | '.' :: _ => none
      | 'e' :: _ => none
      | 'E' :: _ => none
      | _ =>
        let n : Int := Int.ofNat (digitsToNat (d :: ds))
        some (if neg then -n else n, rest)

mutual

/-- Parse one JSON value (after skipping leading whitespace), returning the
value and the rest of the input.  Fuel bounds the nesting depth. -/
def parseValue : Nat → List Char → Option (Json × List Char)
  | 0, _ => none
  | fuel + 1, cs =>
    match skipWs cs with
    | 'n' :: 'u' :: 'l' :: 'l' :: rest => some (.null, rest)
    | 't' :: 'r' :: 'u' :: 'e' :: rest => some (.bool true, rest)
    | 'f' :: 'a' :: 'l' :: 's' :: 'e' :: rest => some (.bool false, rest)
    | '\x22' :: rest =>
      (parseStringBody rest).map fun (s, r) => (.str (String.mk s), r)
    | '\x5b' :: rest =>
      match skipWs rest with
      | '\x5d' :: r => some (.arr [], r)
      | other => (parseElems fuel other).map fun (vs, r) => (.arr vs, r)
    | '\x7b' :: rest =>
      match skipWs rest with
      | '\x7d' :: r => some (.obj [], r)
      | other => (parseFields fuel other).map fun (fs, r) => (.obj fs, r)
    | other => (parseNumber other).map fun (n, r) => (.num n, r)

/-- Comma-separated array elements up to and including the closing `]`. -/
def parseElems : Nat → List Char → Option (List Json × List Char)
  | 0, _ => none
  | fuel + 1, cs =>
    match parseValue fuel cs with
    | none => none
    | some (v, r) =>
      match skipWs r with
      | ',' :: r2 => (parseElems fuel r2).map fun (vs, r3) => (v :: vs, r3)
      | '\x5d' :: r2 => some ([v], r2)
      | _ => none

/-- Comma-separated `"key": value` object members up to and including the
closing `}`. -/
def parseFields : Nat → List Char → Option (List (String × Json) × List Char)
  | 0, _ => none
  | fuel + 1, cs =>
    match skipWs cs with
    | '\x22' :: rest =>
      match parseStringBody rest with
      | none => none
      | some (k, r) =>
        match skipWs r with
        | ':' :: r2 =>
          match parseValue fuel r2 with
          | none => none
          | some (v, r3) =>
            match skipWs r3 with
            | ',' :: r4 =>
              (parseFields fuel r4).map fun (fs, r5) =>
                ((String.mk k, v) :: fs, r5)
            | '\x7d' :: r4 => some ([(String.mk k, v)], r4)
            | _ => none
        | _ => none
    | _ => none

end

/-- Model of the Python `json.loads`: parse the whole string as one JSON
value, allowing surrounding whitespace only. -/
def json_loads (s : String) : Option Json :=
  match parseValue (s.length + 1) s.data with
  | some (v, rest) => if skipWs rest = [] then some v else none
  | none => none

/-- Hex digit character (lowercase), for `\u00xx` escapes. -/
def hexDigit (n : Nat) : Char :=
  if n < 10 then Char.ofNat ('0'.toNat + n) else Char.ofNat ('a'.toNat + n - 10)

/-- Escaping of one character inside a dumped JSON string, as done by
`json.dumps(..., ensure_ascii=False)`: quote, backslash and the named
control escapes, `\u00xx` for the remaining control characters, everything
else verbatim. -/
def dumpEscape (c : Char) : List Char :=
  if c = '\x22' then ['\\', '\x22']
  else if c = '\\' then ['\\', '\\']
  else if c = '\n' then ['\\', 'n']
  else if c = '\t' then ['\\', 't']
  else if c = '\r' then ['\\', 'r']
  else if c = '\x08' then ['\\', 'b']
  else if c = '\x0c' then ['\\', 'f']
  else if c.toNat < 0x20 then
    ['\\', 'u', '0', '0', hexDigit (c.toNat / 16), hexDigit (c.toNat % 16)]
  else [c]

/-- A dumped JSON string literal. -/
def dumpString (s : String) : List Char :=
  '\x22' :: s.data.flatMap dumpEscape ++ ['\x22']

/-- Exactly `2 * lvl` spaces of indentation (`indent=2`). -/
def indentSp (lvl : Nat) : List Char :=
  List.replicate (2 * lvl) ' '

mutual

/-- Model of `json.dumps(v, ensure_ascii=False, indent=2)` at nesting level
`lvl`: containers break across lines with two-space indent steps, the
item separator is `","` + newline and the key separator is `": "`
(the Python defaults when `indent` is given). -/
def dumpJson : Json → Nat → List Char
  | .null, _ => ['n', 'u', 'l', 'l']
  | .bool true, _ => ['t', 'r', 'u', 'e']
  | .bool false, _ => ['f', 'a', 'l', 's', 'e']
  | .num n, _ => (toString n).data
  | .str s, _ => dumpString s
  | .arr [], _ => ['\x5b', '\x5d']
  | .arr (x :: xs), lvl =>
    '\x5b' :: '\n' :: indentSp (lvl + 1) ++ dumpJson x (lvl + 1) ++
      dumpElems xs (lvl + 1) ++ '\n' :: indentSp lvl ++ ['\x5d']
  | .obj [], _ => ['\x7b', '\x7d']
  | .obj (f :: fs), lvl =>
    '\x7b' :: '\n' :: indentSp (lvl + 1) ++ dumpField f (lvl + 1) ++
      dumpFields fs (lvl + 1) ++ '\n' :: indentSp lvl ++ ['\x7d']

/-- Remaining array elements, each preceded by `",\n"` and indentation. -/
def dumpElems : List Json → Nat → List Char
  | [], _ => []
  | x :: xs, lvl => ',' :: '\n' :: indentSp lvl ++ dumpJson x lvl ++ dumpElems xs lvl

/-- One `"key": value` member. -/
def dumpField : String × Json → Nat → List Char
  | (k, v), lvl => dumpString k ++ ':' :: ' ' :: dumpJson v lvl

/-- Remaining object members, each preceded by `",\n"` and indentation. -/
def dumpFields : List (String × Json) → Nat → List Char
  | [], _ => []
  | f :: fs, lvl => ',' :: '\n' :: indentSp lvl ++ dumpField f lvl ++ dumpFields fs lvl

end

/-- Model of `json.dumps(v, ensure_ascii=False, indent=2)`. -/
def json_dumps_indent2 (v : Json) : String :=
  String.mk (dumpJson v 0)

/-! ### The regex models of `LLMOperator._invoke_json`

`_invoke_json` uses two `re.search` patterns over the raw model output:
the case-insensitive, DOTALL, non-greedy fenced pattern
`` ```json\s*(\{.*?\}|\[.*?\])\s*``` `` and the DOTALL greedy pattern
`(\{.*\}|\[.*\])`.  Both are modelled below by direct recursion with
the Python leftmost-match, alternation-order and greediness semantics. -/

/-- the Python `\s` on the ASCII range: space, tab, newline, carriage
return, vertical tab, form feed. -/
def reWs (c : Char) : Bool :=
  c = ' ' || c = '\t' || c = '\n' || c = '\r' || c = '\x0b' || c = '\x0c'

/-- Case-insensitive single-character match (`re.I` over the ASCII
pattern characters in use): the pattern character matches itself, its
uppercase form and its lowercase form. -/
def ciEq (p c : Char) : Bool :=
  p == c || p.toUpper == c || p.toLower == c

/-- Consume a literal pattern case-insensitively (`re.I`); returns the
remaining input on success. -/
def matchCI : List Char → List Char → Option (List Char)
  | [], cs => some cs
  | _ :: _, [] => none
  | p :: ps, c :: cs => if ciEq p c then matchCI ps cs else none

/-- Does `\s*` followed by a literal ``` ``` ``` match a prefix of the
input?  (The closing part of the fenced pattern.) -/
def fenceFollows (cs : List Char) : Bool :=
  decide ((cs.dropWhile reWs).take 3 = ['\x60', '\x60', '\x60'])

/-- Non-greedy group body: the shortest prefix ending at `closer` that is
followed by `\s*` and a closing fence — the backtracking semantics of
`\{.*?\}\s*``` ` (and the bracket variant). -/
def fencedBody (closer : Char) : List Char → Option (List Char)
  | [] => none
  | c :: cs =>
    if c = closer ∧ fenceFollows cs then some [c]
    else
      match fencedBody closer cs with
      | some g => some (c :: g)
      | none => none

/-- The capture group of the fenced pattern: after the maximal `\s*` run,
the group must open with a brace or bracket (alternation order: brace
first) and its non-greedy body runs to the first closer that is followed
by a closing fence. -/
def fencedGroup : List Char → Option (List Char)
  | [] => none
  | d :: body =>
    if d = '\x7b' then (fencedBody '\x7d' body).map fun g => d :: g
    else if d = '\x5b' then (fencedBody '\x5d' body).map fun g => d :: g
    else none

/-- Attempt the whole fenced pattern at this exact position. -/
def fencedMatchAt (cs : List Char) : Option (List Char) :=
  match matchCI ['\x60', '\x60', '\x60', 'j', 's', 'o', 'n'] cs with
  | none => none
  | some rest => fencedGroup (rest.dropWhile reWs)

/-- Model of `re.search` of the fenced pattern: leftmost position at which the whole
pattern matches; yields the captured group. -/
def fencedSearch : List Char → Option (List Char)
  | [] => none
  | c :: cs =>
    match fencedMatchAt (c :: cs) with
    | some g => some g
    | none => fencedSearch cs

/-- The prefix of `l` up to and including the **last** occurrence of `c`
(the extent of a greedy `.*` before a final literal). -/
def takeUpToLast (c : Char) (l : List Char) : List Char :=
  (l.reverse.dropWhile (· != c)).reverse

/-- Model of `re.search(r"(\{.*\}|\[.*\])", raw, re.S)`: at the leftmost position
whose character is `{` with a later `}` (alternative one, tried first) or
`[` with a later `]` (alternative two), the greedy `.*` extends to the
last such closer in the whole remaining text. -/
def greedySpan : List Char → Option (List Char)
  | [] => none
  | c :: rest =>
    if c = '\x7b' ∧ '\x7d' ∈ rest then some (c :: takeUpToLast '\x7d' rest)
    else if c = '\x5b' ∧ '\x5d' ∈ rest then some (c :: takeUpToLast '\x5d' rest)
    else greedySpan rest

/-- The failure modes of `LLMOperator._invoke_json`:
`malformed` is the final `ValueError("Model did not return JSON. First 200
chars: ...")`; `fragmentInvalid` is the `ValueError("JSON fragment invalid:
...; fragment starts: ...")` raised when the greedy span does not parse;
`fencedDecodeError` is the `json.JSONDecodeError` that propagates uncaught
out of the fenced branch (`return json.loads(fenced.group(1))`). -/
inductive ExtractError where
  | malformed (head : String)
  | fragmentInvalid (fragHead : String)
  | fencedDecodeError

/-- The first `n` characters of a string (`raw[:200]`). -/
def firstChars (n : Nat) (s : String) : String :=
  String.mk (s.data.take n)

/-- The JSON-extraction chain of `LLMOperator._invoke_json`, applied to the
raw text returned by the model: direct `json.loads`, then the fenced
pattern, then the greedy span, first success winning. -/
def invokeJsonExtract (raw : String) : Except ExtractError Json :=
  match json_loads raw with
  | some v => .ok v
  | none =>
    match fencedSearch raw.data with
    | some frag =>
      match json_loads (String.mk frag) with
      | some v => .ok v
      | none => .error .fencedDecodeError
    | none =>
      match greedySpan raw.data with
      | some frag =>
        match json_loads (String.mk frag) with
        | some v => .ok v
        | none => .error (.fragmentInvalid (firstChars 200 (String.mk frag)))
      | none => .error (.malformed (firstChars 200 raw))

/-- Model of `LLMOperator._ainvoke_text`, instrumented with a call counter: the
model is an oracle indexed by the number of calls made so far; each
invocation consumes exactly one index. -/
def ainvokeTextCounted (respond : Nat → String) (calls : Nat) : String × Nat :=
  (respond calls, calls + 1)

/-- Model of `LLMOperator._invoke_json` with the instrumented model: one
`_ainvoke_text` call, then the extraction chain on its raw text.  The
returned `Nat` is the total number of model invocations performed. -/
def invokeJsonCounted (respond : Nat → String) : Except ExtractError Json × Nat :=
  let (raw, calls) := ainvokeTextCounted respond 0
  (invokeJsonExtract raw, calls)

/-! ### Pydantic validation of `schemas/resume_schemas.py`

Field extraction models pydantic v2 behaviour on JSON input: a declared
field takes its default when absent, `Optional[str] = None` fields accept
`null` or a string, `List[str]` fields accept exactly a list of strings
(no silent coercion), `int` fields accept integer literals, and `ge`/`le`
bounds reject out-of-range values.  Unknown keys are ignored
(`extra="allow"` / pydantic's default) except where `extra="forbid"` is
declared. -/

/-- Look up a key of a JSON object (`dict` access). -/
def getField : List (String × Json) → String → Option Json
  | [], _ => none
  | (k, v) :: fs, key => if key = k then some v else getField fs key

/-- A JSON value as a Python `str`. -/
def asStr : Json → Option String
  | .str s => some s
  | _ => none

/-- A JSON value as a Python `int` (pydantic rejects bools for `int`). -/
def asInt : Json → Option Int
  | .num n => some n
  | _ => none

/-- An `Optional[str] = None` field: missing or `null` is `None`. -/
def optStrField (fields : List (String × Json)) (k : String) : Option (Option String) :=
  match getField fields k with
  | none => some none
  | some .null => some none
  | some (.str s) => some (some s)
  | some _ => none

/-- A required `str` field. -/
def reqStrField (fields : List (String × Json)) (k : String) : Option String :=
  match getField fields k with
  | some (.str s) => some s
  | _ => none

/-- A list of JSON values as a Python `list[str]`. -/
def asStrList : List Json → Option (List String)
  | [] => some []
  | v :: vs =>
    match asStr v with
    | none => none
    | some str => (asStrList vs).map fun strs => str :: strs

/-- Object members as a Python `dict[str, int]`. -/
def asIntDict : List (String × Json) → Option (List (String × Int))
  | [] => some []
  | f :: fs =>
    match asInt f.2 with
    | none => none
    | some n => (asIntDict fs).map fun rest => (f.1, n) :: rest

/-- Object members as a Python `dict[str, list[str]]`. -/
def asStrListDict : List (String × Json) → Option (List (String × List String))
  | [] => some []
  | f :: fs =>
    match f.2 with
    | .arr es =>
      match asStrList es with
      | none => none
      | some strs => (asStrListDict fs).map fun rest => (f.1, strs) :: rest
    | _ => none

/-- A `List[str] = Field(default_factory=list)` field. -/
def strListField (fields : List (String × Json)) (k : String) : Option (List String) :=
  match getField fields k with
  | none => some []
  | some (.arr es) => asStrList es
  | some _ => none

/-- A `Dict[str, int] = Field(default_factory=dict)` field. -/
def intDictField (fields : List (String × Json)) (k : String) :
    Option (List (String × Int)) :=
  match getField fields k with
  | none => some []
  | some (.obj fs) => asIntDict fs
  | some _ => none

/-- A `Dict[str, List[str]] = Field(default_factory=dict)` field. -/
def strListDictField (fields : List (String × Json)) (k : String) :
    Option (List (String × List String)) :=
  match getField fields k with
  | none => some []
  | some (.obj fs) => asStrListDict fs
  | some _ => none

/-- Structure `ExperienceItem` of `resume_schemas.py`. -/
structure ExperienceItem where
  company : String
  role : String
  start : Option String
  end_ : Option String
  bullets : List String
deriving DecidableEq

/-- Structure `EducationItem` of `resume_schemas.py`. -/
structure EducationItem where
  school : String
  degree : Option String
  year : Option String
deriving DecidableEq

/-- Structure `CanonicalProfile` of `resume_schemas.py`. -/
structure CanonicalProfile where
  name : Option String
  title : Option String
  summary : Option String
  skills : List String
  experience : List ExperienceItem
  education : List EducationItem
deriving DecidableEq

/-- Validation of one `ExperienceItem`: `company`/`role` required strings,
`start`/`end` optional, `bullets` a string list defaulting to `[]`. -/
def validateExperienceItem (j : Json) : Option ExperienceItem :=
  match j with
  | .obj fs => do
    let company ← reqStrField fs "company"
    let role ← reqStrField fs "role"
    let start ← optStrField fs "start"
    let end_ ← optStrField fs "end"
    let bullets ← strListField fs "bullets"
    some ⟨company, role, start, end_, bullets⟩
  | _ => none

/-- Validation of one `EducationItem`. -/
def validateEducationItem (j : Json) : Option EducationItem :=
  match j with
  | .obj fs => do
    let school ← reqStrField fs "school"
    let degree ← optStrField fs "degree"
    let year ← optStrField fs "year"
    some ⟨school, degree, year⟩
  | _ => none

/-- A list of JSON values validated elementwise by a nested model. -/
def validateList {α : Type} (validate : Json → Option α) : List Json → Option (List α)
  | [] => some []
  | v :: vs =>
    match validate v with
    | none => none
    | some a => (validateList validate vs).map fun rest => a :: rest

/-- A `List[X] = Field(default_factory=list)` field of nested models. -/
def itemListField {α : Type} (validate : Json → Option α)
    (fields : List (String × Json)) (k : String) : Option (List α) :=
  match getField fields k with
  | none => some []
  | some (.arr es) => validateList validate es
  | some _ => none

/-- Validation of `CanonicalProfile`: no field validator is declared on the
class, so list fields are accepted exactly as given. -/
def validateCanonicalProfile (j : Json) : Option CanonicalProfile :=
  match j with
  | .obj fs => do
    let name ← optStrField fs "name"
    let title ← optStrField fs "title"
    let summary ← optStrField fs "summary"
    let skills ← strListField fs "skills"
    let experience ← itemListField validateExperienceItem fs "experience"
    let education ← itemListField validateEducationItem fs "education"
    some ⟨name, title, summary, skills, experience, education⟩
  | _ => none

/-- Structure `AnalyzeResponse` of `resume_schemas.py` (`extra="allow"`). -/
structure AnalyzeResponse where
  quality : Int
  strengths : List String
  gaps : List String
  risks : List String
  recommendations : List String
  section_scores : List (String × Int)
  keyword_clusters : List (String × List String)
  anomalies : List String
deriving DecidableEq

/-- Validation of `AnalyzeResponse`: `quality` is declared
`Field(0, ge=0, le=100)` — out-of-range integers are rejected, not
clamped; all list fields default to empty and carry no other
constraint. -/
def validateAnalyzeResponse (j : Json) : Option AnalyzeResponse :=
  match j with
  | .obj fs => do
    let quality ←
      match getField fs "quality" with
      | none => some 0
      | some (.num n) => if 0 ≤ n ∧ n ≤ 100 then some n else none
      | some _ => none
    let strengths ← strListField fs "strengths"
    let gaps ← strListField fs "gaps"
    let risks ← strListField fs "risks"
    let recommendations ← strListField fs "recommendations"
    let section_scores ← intDictField fs "section_scores"
    let keyword_clusters ← strListDictField fs "keyword_clusters"
    let anomalies ← strListField fs "anomalies"
    some ⟨quality, strengths, gaps, risks, recommendations,
          section_scores, keyword_clusters, anomalies⟩
  | _ => none

/-- Structure `TailorResponse` of `resume_schemas.py` (`extra="allow"`). -/
structure TailorResponse where
  bullets : List String
  removed : List String
  focus : List String
deriving DecidableEq

/-- Validation of `TailorResponse`: the three list fields default to empty
and are declared without any length constraint. -/
def validateTailorResponse (j : Json) : Option TailorResponse :=
  match j with
  | .obj fs => do
    let bullets ← strListField fs "bullets"
    let removed ← strListField fs "removed"
    let focus ← strListField fs "focus"
    some ⟨bullets, removed, focus⟩
  | _ => none

/-- Structure `ATSScoreResponse` of `resume_schemas.py` (`extra="allow"`).  Note:
`score` is declared `Field(0, description="ATS score between 0 and 100.")`
with **no** `ge`/`le` bound. -/
structure ATSScoreResponse where
  score : Int
  gaps : List String
  recommendations : List String
  keyword_match : List (String × List String)
deriving DecidableEq

/-- Validation of `ATSScoreResponse`: any integer `score` is accepted (the
declaration carries no range bound, unlike `AnalyzeResponse.quality`). -/
def validateATSScoreResponse (j : Json) : Option ATSScoreResponse :=
  match j with
  | .obj fs => do
    let score ←
      match getField fs "score" with
      | none => some 0
      | some v => asInt v
    let gaps ← strListField fs "gaps"
    let recommendations ← strListField fs "recommendations"
    let keyword_match ← strListDictField fs "keyword_match"
    some ⟨score, gaps, recommendations, keyword_match⟩
  | _ => none

/-- Structure `ATSScoreRequest` of `resume_schemas.py` (`extra="forbid"`). -/
structure ATSScoreRequest where
  resume_text : Option String
  canonical : Option CanonicalProfile
  job_description : String
deriving DecidableEq

/-- Python truthiness of an `Optional[str]`: `None` and `""` are falsy. -/
def pyTruthyOptStr : Option String → Bool
  | none => false
  | some s => !s.isEmpty

/-- The `@model_validator(mode="after")` `_require_one` of
`ATSScoreRequest`: `if not (self.resume_text or self.canonical)` — a model
instance (`canonical`) is always truthy, a string is truthy iff
non-empty. -/
def requireOne (r : ATSScoreRequest) : Except String ATSScoreRequest :=
  if pyTruthyOptStr r.resume_text || r.canonical.isSome then .ok r
  else .error "Provide \x27resume_text\x27 or \x27canonical\x27."

/-- Full validation of `ATSScoreRequest` from a JSON body: `extra="forbid"`
rejects unknown keys, `job_description` is required, the optional fields
are typed, and `_require_one` runs last. -/
def validateATSScoreRequest (j : Json) : Except String ATSScoreRequest :=
  match j with
  | .obj fs =>
    if fs.all fun f =>
        f.1 == "resume_text" || f.1 == "canonical" || f.1 == "job_description" then
      match optStrField fs "resume_text" with
      | none => .error "resume_text: invalid"
      | some rt =>
        match
          (match getField fs "canonical" with
           | none => some none
           | some .null => some none
           | some v => (validateCanonicalProfile v).map some) with
        | none => .error "canonical: invalid"
        | some canon =>
          match reqStrField fs "job_description" with
          | none => .error "job_description: required"
          | some jd => requireOne ⟨rt, canon, jd⟩
    else .error "extra fields forbidden"
  | _ => .error "not an object"

/-! ### The `/chat` handler of `api/chat.py` -/

/-- Structure `ChatRequest` of `schemas/chat_schema.py`. -/
structure ChatRequest where
  message : String
  profile : Option String
  user_id : Option String
deriving DecidableEq

/-- Structure `ResumeSuggestion` of `schemas/chat_schema.py`. -/
structure ResumeSuggestion where
  summary : Option String
  bullets : Option (List String)
  skills : Option (List String)
  raw_text : Option String
deriving DecidableEq

/-- Structure `ChatResponse` of `schemas/chat_schema.py`. -/
structure ChatResponse where
  original : ChatRequest
  suggestion : ResumeSuggestion
deriving DecidableEq

/-- The outcome of a request handler: a value, or an
`HTTPException(status_code, detail)` whose body is `{"detail": detail}`. -/
inductive HandlerResult (α : Type) where
  | ok (value : α)
  | httpError (status : Nat) (detail : String)
deriving DecidableEq

/-- The whitespace stripped by the Python `str.strip()` (ASCII range). -/
def pyWs (c : Char) : Bool :=
  c = ' ' || c = '\t' || c = '\n' || c = '\r' || c = '\x0b' || c = '\x0c'

/-- The `/chat` route handler of `api/chat.py`, with the model as a
counted oracle: `if not request.message or not request.message.strip():`
raises `HTTPException(400, "Message cannot be empty.")` before any model
call; otherwise one `llm.generate` call is made and wrapped into a
`ChatResponse`, any exception becoming a 500. -/
def chatHandler (respond : Nat → Except String String) (req : ChatRequest) :
    HandlerResult ChatResponse × Nat :=
  if req.message.data.all pyWs then
    (.httpError 400 "Message cannot be empty.", 0)
  else
    match respond 0 with
    | .ok text => (.ok ⟨req, ⟨none, none, none, some text⟩⟩, 1)
    | .error e => (.httpError 500 e, 1)

/-- The `/resume/analyze` handler flow with the counted model oracle: one
model round trip, then JSON extraction, then `AnalyzeResponse` validation;
every failure maps to a 500 without any further model call. -/
def analyzeHandlerCounted (respond : Nat → String) :
    HandlerResult AnalyzeResponse × Nat :=
  let raw := (ainvokeTextCounted respond 0).1
  let calls := (ainvokeTextCounted respond 0).2
  match invokeJsonExtract raw with
  | .error _ => (.httpError 500 "analyze failed", calls)
  | .ok j =>
    match validateAnalyzeResponse j with
    | none => (.httpError 500 "analyze failed", calls)
    | some r => (.ok r, calls)

/-! ### `services/prompt_builders.py : _dump` -/

/-- The `Union[str, Dict[str, Any], None]` argument type of `_dump`. -/
inductive DumpArg where
  | pyNone
  | pyStr (s : String)
  | pyDict (j : Json)

/-- Function `_dump`: `None` becomes the empty string, a string passes through
unchanged, a dict is serialized with
`json.dumps(obj, ensure_ascii=False, indent=2)`. -/
def dump : DumpArg → String
  | .pyNone => ""
  | .pyStr s => s
  | .pyDict j => json_dumps_indent2 j

/-! ### `models/resume.py : Resume` -/

/-- The experience entries appended by `Resume.add_experience`. -/
structure PyExperience where
  job_title : String
  company : String
  start_date : String
  end_date : String
  responsibilities : List String
deriving DecidableEq

/-- The education entries appended by `Resume.add_education`. -/
structure PyEducation where
  degree : String
  institution : String
  graduation_year : String
deriving DecidableEq

/-- The plain data class `Resume` of `models/resume.py`. -/
structure Resume where
  name : String
  contact_info : String
  education : List PyEducation
  experience : List PyExperience
  skills : List String
deriving DecidableEq

/-- Method `Resume.add_experience`: appends one entry. -/
def Resume.add_experience (r : Resume) (e : PyExperience) : Resume :=
  { r with experience := r.experience ++ [e] }

/-- Method `Resume.add_education`: appends one entry. -/
def Resume.add_education (r : Resume) (e : PyEducation) : Resume :=
  { r with education := r.education ++ [e] }

/-- Method `Resume.add_skill`: `if skill not in self.skills:
self.skills.append(skill)`. -/
def Resume.add_skill (r : Resume) (skill : String) : Resume :=
  if skill ∈ r.skills then r else { r with skills := r.skills ++ [skill] }

/-! ## Supporting lemmas -/

theorem dropWhile_append_of_all {α : Type} (p : α → Bool) (l₁ l₂ : List α)
    (h : ∀ a ∈ l₁, p a = true) :
    (l₁ ++ l₂).dropWhile p = l₂.dropWhile p := by
  induction l₁ with
  | nil => simp
  | cons a l ih =>
    simp only [List.cons_append, List.dropWhile_cons, h a (by simp)]
    exact ih fun x hx => h x (by simp [hx])

theorem takeUpToLast_append (c : Char) (mid post : List Char) (h : c ∉ post) :
    takeUpToLast c (mid ++ c :: post) = mid ++ [c] := by
  unfold takeUpToLast
  rw [List.reverse_append, List.reverse_cons,
    List.append_assoc, List.singleton_append,
    dropWhile_append_of_all _ post.reverse (c :: mid.reverse)
      (fun x hx => by
        simp only [bne_iff_ne, ne_eq]
        exact fun hxc => h (hxc ▸ List.mem_reverse.mp hx))]
  simp [List.dropWhile_cons]

theorem greedySpan_append_brace (pre mid post : List Char)
    (hpre : ∀ c ∈ pre, c ≠ '\x7b' ∧ c ≠ '\x5b')
    (hpost : '\x7d' ∉ post) :
    greedySpan (pre ++ '\x7b' :: (mid ++ '\x7d' :: post)) =
      some ('\x7b' :: (mid ++ ['\x7d'])) := by
  induction pre with
  | nil =>
    simp only [List.nil_append, greedySpan]
    rw [if_pos (by simp), takeUpToLast_append _ _ _ hpost]
  | cons a pre ih =>
    have ha := hpre a (by simp)
    simp only [List.cons_append, greedySpan,
      if_neg (fun hc : a = '\x7b' ∧ _ => ha.1 hc.1),
      if_neg (fun hc : a = '\x5b' ∧ _ => ha.2 hc.1)]
    exact ih fun c hc => hpre c (by simp [hc])

theorem greedySpan_append_bracket (pre mid post : List Char)
    (hpre : ∀ c ∈ pre, c ≠ '\x7b' ∧ c ≠ '\x5b')
    (hpost : '\x5d' ∉ post) :
    greedySpan (pre ++ '\x5b' :: (mid ++ '\x5d' :: post)) =
      some ('\x5b' :: (mid ++ ['\x5d'])) := by
  induction pre with
  | nil =>
    simp only [List.nil_append, greedySpan]
    rw [if_neg, if_pos (by simp), takeUpToLast_append _ _ _ hpost]
    rintro ⟨h, -⟩
    exact absurd h (by decide)
  | cons a pre ih =>
    have ha := hpre a (by simp)
    simp only [List.cons_append, greedySpan,
      if_neg (fun hc : a = '\x7b' ∧ _ => ha.1 hc.1),
      if_neg (fun hc : a = '\x5b' ∧ _ => ha.2 hc.1)]
    exact ih fun c hc => hpre c (by simp [hc])

theorem ciEq_backtick_eq_false {c : Char} (h : c ≠ '\x60') : ciEq '\x60' c = false := by
  have h1 : Char.toUpper '\x60' = '\x60' := rfl
  have h2 : Char.toLower '\x60' = '\x60' := rfl
  simp only [ciEq, h1, h2, Bool.or_self, beq_eq_false_iff_ne, ne_eq]
  exact fun hc => h hc.symm

theorem fencedMatchAt_cons_ne {c : Char} {cs : List Char} (h : c ≠ '\x60') :
    fencedMatchAt (c :: cs) = none := by
  simp [fencedMatchAt, matchCI, ciEq_backtick_eq_false h]

theorem fencedSearch_none_of_no_backtick :
    ∀ cs : List Char, (∀ c ∈ cs, c ≠ '\x60') → fencedSearch cs = none := by
  intro cs
  induction cs with
  | nil => intro _; rfl
  | cons a l ih =>
    intro h
    simp only [fencedSearch, fencedMatchAt_cons_ne (h a (by simp))]
    exact ih fun c hc => h c (by simp [hc])

theorem matchCI_suffix :
    ∀ (ps cs rest : List Char), matchCI ps cs = some rest → ∃ l, cs = l ++ rest := by
  intro ps
  induction ps with
  | nil =>
    intro cs rest h
    simp only [matchCI, Option.some.injEq] at h
    exact ⟨[], by simp [h]⟩
  | cons p ps ih =>
    intro cs rest h
    cases cs with
    | nil => simp [matchCI] at h
    | cons c cs' =>
      simp only [matchCI] at h
      split at h
      · obtain ⟨l, hl⟩ := ih cs' rest h
        exact ⟨c :: l, by simp [hl]⟩
      · exact absurd h (by simp)

theorem fencedBody_mem :
    ∀ (closer : Char) (body g : List Char), fencedBody closer body = some g → closer ∈ body := by
  intro closer body
  induction body with
  | nil => intro g h; simp [fencedBody] at h
  | cons c cs ih =>
    intro g h
    simp only [fencedBody] at h
    split at h
    · rename_i hcond
      rw [← hcond.1]
      exact List.mem_cons_self c cs
    · cases heq : fencedBody closer cs with
      | none => rw [heq] at h; simp at h
      | some g' => exact List.mem_cons_of_mem c (ih g' heq)

theorem greedySpan_isSome_of_brace :
    ∀ (l r : List Char), '\x7d' ∈ r → (greedySpan (l ++ '\x7b' :: r)).isSome = true := by
  intro l
  induction l with
  | nil =>
    intro r h
    simp only [List.nil_append, greedySpan]
    rw [if_pos (by simp [h])]
    rfl
  | cons a l ih =>
    intro r h
    simp only [List.cons_append, greedySpan]
    split
    · rfl
    · split
      · rfl
      · exact ih r h

theorem greedySpan_isSome_of_bracket :
    ∀ (l r : List Char), '\x5d' ∈ r → (greedySpan (l ++ '\x5b' :: r)).isSome = true := by
  intro l
  induction l with
  | nil =>
    intro r h
    simp only [List.nil_append, greedySpan]
    split
    · rfl
    · rw [if_pos (by simp [h])]
      rfl
  | cons a l ih =>
    intro r h
    simp only [List.cons_append, greedySpan]
    split
    · rfl
    · split
      · rfl
      · exact ih r h

theorem fencedMatchAt_some_span (cs g : List Char) (h : fencedMatchAt cs = some g) :
    (∃ l r, cs = l ++ '\x7b' :: r ∧ '\x7d' ∈ r) ∨
      (∃ l r, cs = l ++ '\x5b' :: r ∧ '\x5d' ∈ r) := by
  cases hm : matchCI ['\x60', '\x60', '\x60', 'j', 's', 'o', 'n'] cs with
  | none => simp [fencedMatchAt, hm] at h
  | some rest =>
    simp only [fencedMatchAt, hm] at h
    obtain ⟨l0, hl0⟩ := matchCI_suffix _ cs rest hm
    have hrest : rest = rest.takeWhile reWs ++ rest.dropWhile reWs :=
      (List.takeWhile_append_dropWhile reWs rest).symm
    cases hd : rest.dropWhile reWs with
    | nil => rw [hd] at h; simp [fencedGroup] at h
    | cons d body =>
      rw [hd] at h hrest
      simp only [fencedGroup] at h
      by_cases hdb : d = '\x7b'
      · subst hdb
        left
        rw [if_pos rfl] at h
        cases hb : fencedBody '\x7d' body with
        | none => rw [hb] at h; simp at h
        | some g' =>
          refine ⟨l0 ++ rest.takeWhile reWs, body, ?_, fencedBody_mem _ _ _ hb⟩
          rw [hl0, List.append_assoc]
          exact congrArg (fun t => l0 ++ t) hrest
      · by_cases hdk : d = '\x5b'
        · subst hdk
          right
          rw [if_neg hdb, if_pos rfl] at h
          cases hb : fencedBody '\x5d' body with
          | none => rw [hb] at h; simp at h
          | some g' =>
            refine ⟨l0 ++ rest.takeWhile reWs, body, ?_, fencedBody_mem _ _ _ hb⟩
            rw [hl0, List.append_assoc]
            exact congrArg (fun t => l0 ++ t) hrest
        · rw [if_neg hdb, if_neg hdk] at h
          exact absurd h (by simp)

theorem fencedSearch_some_span :
    ∀ (cs g : List Char), fencedSearch cs = some g →
      (∃ l r, cs = l ++ '\x7b' :: r ∧ '\x7d' ∈ r) ∨
        (∃ l r, cs = l ++ '\x5b' :: r ∧ '\x5d' ∈ r) := by
  intro cs
  induction cs with
  | nil => intro g h; simp [fencedSearch] at h
  | cons c cs' ih =>
    intro g h
    simp only [fencedSearch] at h
    cases hm : fencedMatchAt (c :: cs') with
    | some g0 => exact fencedMatchAt_some_span _ g0 hm
    | none =>
      rw [hm] at h
      rcases ih g h with ⟨l, r, hcs, hmem⟩ | ⟨l, r, hcs, hmem⟩
      · exact Or.inl ⟨c :: l, r, by simp [hcs], hmem⟩
      · exact Or.inr ⟨c :: l, r, by simp [hcs], hmem⟩

theorem fenceFollows_of_ws (ws tail : List Char) (h : ∀ c ∈ ws, reWs c = true) :
    fenceFollows (ws ++ '\x60' :: '\x60' :: '\x60' :: tail) = true := by
  simp only [fenceFollows, dropWhile_append_of_all reWs ws _ h]
  rw [List.dropWhile_cons, if_neg (by decide)]
  simp

theorem fenceFollows_false_of (m2 : List Char) (d : Char) (rest : List Char)
    (hm : ∀ c ∈ m2, c ≠ '\x60') (hd : d ≠ '\x60') (hdw : reWs d = false) :
    fenceFollows (m2 ++ d :: rest) = false := by
  induction m2 with
  | nil =>
    simp only [List.nil_append, fenceFollows, List.dropWhile_cons, hdw]
    simp [List.take, hd]
  | cons a m ih =>
    have ha := hm a (by simp)
    by_cases haw : reWs a = true
    · simp only [List.cons_append, fenceFollows, List.dropWhile_cons, haw, if_pos]
      exact ih fun c hc => hm c (by simp [hc])
    · simp only [List.cons_append, fenceFollows, List.dropWhile_cons, if_neg haw]
      simp [List.take, ha]

theorem fencedBody_exact (closer : Char) (hcl : closer ≠ '\x60') (hclw : reWs closer = false)
    (mid ws2 tail : List Char)
    (hmid : ∀ c ∈ mid, c ≠ '\x60') (hws2 : ∀ c ∈ ws2, reWs c = true) :
    fencedBody closer (mid ++ closer :: (ws2 ++ '\x60' :: '\x60' :: '\x60' :: tail)) =
      some (mid ++ [closer]) := by
  induction mid with
  | nil =>
    simp only [List.nil_append, fencedBody]
    rw [if_pos (by simp [fenceFollows_of_ws ws2 tail hws2])]
  | cons a m ih =>
    have hrec := ih fun c hc => hmid c (by simp [hc])
    simp only [List.cons_append, fencedBody, List.append_eq]
    rw [if_neg, hrec]
    rintro ⟨hac, hff⟩
    subst hac
    rw [fenceFollows_false_of m a (ws2 ++ '\x60' :: '\x60' :: '\x60' :: tail)
      (fun c hc => hmid c (by simp [hc])) hcl hclw] at hff
    exact absurd hff (by simp)

theorem matchCI_fence (rest : List Char) :
    matchCI ['\x60', '\x60', '\x60', 'j', 's', 'o', 'n']
      ('\x60' :: '\x60' :: '\x60' :: 'j' :: 's' :: 'o' :: 'n' :: rest) = some rest := by
  rfl

theorem fencedMatchAt_fence_brace (ws1 mid ws2 tail : List Char)
    (h1 : ∀ c ∈ ws1, reWs c = true) (hmid : ∀ c ∈ mid, c ≠ '\x60')
    (h2 : ∀ c ∈ ws2, reWs c = true) :
    fencedMatchAt ('\x60' :: '\x60' :: '\x60' :: 'j' :: 's' :: 'o' :: 'n' ::
        (ws1 ++ '\x7b' :: (mid ++ '\x7d' :: (ws2 ++ '\x60' :: '\x60' :: '\x60' :: tail)))) =
      some ('\x7b' :: (mid ++ ['\x7d'])) := by
  simp only [fencedMatchAt, matchCI_fence, dropWhile_append_of_all reWs ws1 _ h1]
  rw [List.dropWhile_cons, if_neg (by decide)]
  simp only [fencedGroup]
  rw [if_pos trivial,
    fencedBody_exact '\x7d' (by decide) (by decide) mid ws2 tail hmid h2]
  rfl

theorem fencedMatchAt_fence_bracket (ws1 mid ws2 tail : List Char)
    (h1 : ∀ c ∈ ws1, reWs c = true) (hmid : ∀ c ∈ mid, c ≠ '\x60')
    (h2 : ∀ c ∈ ws2, reWs c = true) :
    fencedMatchAt ('\x60' :: '\x60' :: '\x60' :: 'j' :: 's' :: 'o' :: 'n' ::
        (ws1 ++ '\x5b' :: (mid ++ '\x5d' :: (ws2 ++ '\x60' :: '\x60' :: '\x60' :: tail)))) =
      some ('\x5b' :: (mid ++ ['\x5d'])) := by
  simp only [fencedMatchAt, matchCI_fence, dropWhile_append_of_all reWs ws1 _ h1]
  rw [List.dropWhile_cons, if_neg (by decide)]
  simp only [fencedGroup]
  rw [if_pos trivial,
    fencedBody_exact '\x5d' (by decide) (by decide) mid ws2 tail hmid h2]
  rfl

theorem fencedSearch_found (pre rest g : List Char) (hpre : ∀ c ∈ pre, c ≠ '\x60')
    (hne : rest ≠ []) (h : fencedMatchAt rest = some g) :
    fencedSearch (pre ++ rest) = some g := by
  induction pre with
  | nil =>
    cases rest with
    | nil => exact absurd rfl hne
    | cons r rs => simp [fencedSearch, h]
  | cons a pre ih =>
    simp only [List.cons_append, fencedSearch,
      fencedMatchAt_cons_ne (hpre a (by simp))]
    exact ih fun c hc => hpre c (by simp [hc])

theorem fencedSearch_none_of_no_span (cs : List Char) (h : greedySpan cs = none) :
    fencedSearch cs = none := by
  cases heq : fencedSearch cs with
  | none => rfl
  | some g =>
    exfalso
    rcases fencedSearch_some_span cs g heq with ⟨l, r, hcs, hmem⟩ | ⟨l, r, hcs, hmem⟩
    · have := greedySpan_isSome_of_brace l r hmem
      rw [← hcs, h] at this
      simp at this
    · have := greedySpan_isSome_of_bracket l r hmem
      rw [← hcs, h] at this
      simp at this

/-! ## Recovery theorems for the extraction chain -/

theorem extraction_recovers_prose_wrapped (pre j post : String) (v : Json)
    (hpre : ∀ c ∈ pre.data, c ≠ '\x7b' ∧ c ≠ '\x5b' ∧ c ≠ '\x60')
    (hpost : ∀ c ∈ post.data, c ≠ '\x7d' ∧ c ≠ '\x5d' ∧ c ≠ '\x60')
    (hjb : ∀ c ∈ j.data, c ≠ '\x60')
    (hshape : (∃ mid, j.data = '\x7b' :: (mid ++ ['\x7d'])) ∨
      (∃ mid, j.data = '\x5b' :: (mid ++ ['\x5d'])))
    (hparse : json_loads j = some v)
    (hdirect : json_loads (pre ++ j ++ post) = none) :
    invokeJsonExtract (pre ++ j ++ post) = .ok v := by
  have hdata : (pre ++ j ++ post).data = pre.data ++ j.data ++ post.data := by
    simp [String.data_append]
  have hnb : ∀ c ∈ (pre ++ j ++ post).data, c ≠ '\x60' := by
    rw [hdata]
    intro c hc
    simp only [List.mem_append] at hc
    rcases hc with (hc | hc) | hc
    · exact (hpre c hc).2.2
    · exact hjb c hc
    · exact (hpost c hc).2.2
  have hfen : fencedSearch (pre ++ j ++ post).data = none :=
    fencedSearch_none_of_no_backtick _ hnb
  have hgs : greedySpan (pre ++ j ++ post).data = some j.data := by
    rcases hshape with ⟨mid, hm⟩ | ⟨mid, hm⟩
    · rw [hdata, hm]
      have hsplit : pre.data ++ ('\x7b' :: (mid ++ ['\x7d'])) ++ post.data =
          pre.data ++ '\x7b' :: (mid ++ '\x7d' :: post.data) := by
        simp
      rw [hsplit,
        greedySpan_append_brace pre.data mid post.data
          (fun c hc => ⟨(hpre c hc).1, (hpre c hc).2.1⟩)
          (fun hmem => (hpost _ hmem).1 rfl)]
    · rw [hdata, hm]
      have hsplit : pre.data ++ ('\x5b' :: (mid ++ ['\x5d'])) ++ post.data =
          pre.data ++ '\x5b' :: (mid ++ '\x5d' :: post.data) := by
        simp
      rw [hsplit,
        greedySpan_append_bracket pre.data mid post.data
          (fun c hc => ⟨(hpre c hc).1, (hpre c hc).2.1⟩)
          (fun hmem => (hpost _ hmem).2.1 rfl)]
  have hmk : String.mk j.data = j := rfl
  simp only [invokeJsonExtract, hdirect, hfen, hgs, hmk, hparse]

theorem extraction_recovers_fence_wrapped (pre ws1 j ws2 post : String) (v : Json)
    (hpre : ∀ c ∈ pre.data, c ≠ '\x60')
    (hws1 : ∀ c ∈ ws1.data, reWs c = true)
    (hws2 : ∀ c ∈ ws2.data, reWs c = true)
    (hjb : ∀ c ∈ j.data, c ≠ '\x60')
    (hshape : (∃ mid, j.data = '\x7b' :: (mid ++ ['\x7d'])) ∨
      (∃ mid, j.data = '\x5b' :: (mid ++ ['\x5d'])))
    (hparse : json_loads j = some v)
    (hdirect : json_loads (pre ++ "```json" ++ ws1 ++ j ++ ws2 ++ "```" ++ post) = none) :
    invokeJsonExtract (pre ++ "```json" ++ ws1 ++ j ++ ws2 ++ "```" ++ post) = .ok v := by
  have hlit7 : ("```json" : String).data =
      ['\x60', '\x60', '\x60', 'j', 's', 'o', 'n'] := rfl
  have hlit3 : ("```" : String).data = ['\x60', '\x60', '\x60'] := rfl
  have hdata : (pre ++ "```json" ++ ws1 ++ j ++ ws2 ++ "```" ++ post).data =
      pre.data ++ ('\x60' :: '\x60' :: '\x60' :: 'j' :: 's' :: 'o' :: 'n' ::
        (ws1.data ++ (j.data ++ (ws2.data ++ '\x60' :: '\x60' :: '\x60' :: post.data)))) := by
    simp [String.data_append, hlit7, hlit3]
  have hfen : fencedSearch (pre ++ "```json" ++ ws1 ++ j ++ ws2 ++ "```" ++ post).data =
      some j.data := by
    rw [hdata]
    rcases hshape with ⟨mid, hm⟩ | ⟨mid, hm⟩
    · have hmid : ∀ c ∈ mid, c ≠ '\x60' := by
        intro c hc
        exact hjb c (by rw [hm]; simp [hc])
      have hsplit : ws1.data ++ (j.data ++ (ws2.data ++ '\x60' :: '\x60' :: '\x60' :: post.data)) =
          ws1.data ++ '\x7b' :: (mid ++ '\x7d' ::
            (ws2.data ++ '\x60' :: '\x60' :: '\x60' :: post.data)) := by
        rw [hm]
        simp
      rw [hsplit]
      rw [fencedSearch_found pre.data _ _ hpre (by simp)
        (fencedMatchAt_fence_brace ws1.data mid ws2.data post.data hws1 hmid hws2)]
      rw [hm]
    · have hmid : ∀ c ∈ mid, c ≠ '\x60' := by
        intro c hc
        exact hjb c (by rw [hm]; simp [hc])
      have hsplit : ws1.data ++ (j.data ++ (ws2.data ++ '\x60' :: '\x60' :: '\x60' :: post.data)) =
          ws1.data ++ '\x5b' :: (mid ++ '\x5d' ::
            (ws2.data ++ '\x60' :: '\x60' :: '\x60' :: post.data)) := by
        rw [hm]
        simp
      rw [hsplit]
      rw [fencedSearch_found pre.data _ _ hpre (by simp)
        (fencedMatchAt_fence_bracket ws1.data mid ws2.data post.data hws1 hmid hws2)]
      rw [hm]
  have hmk : String.mk j.data = j := rfl
  simp only [invokeJsonExtract, hdirect, hfen, hmk, hparse]

/-! ## Claim theorems -/

/-- C1 (corrected).  For raw model output consisting of a valid JSON object
or array wrapped in surrounding prose or in a markdown ```json fence, the
extraction chain of `LLMOperator._invoke_json` returns the same parsed
value as direct-parsing the unwrapped JSON text, trying direct parse, then
the fenced block, then the brace-or-bracket span, first success winning —
provided the wrapping contains no stray brace, bracket or backtick
characters, and the JSON text itself contains no backtick characters.
The counterexample shows the claim fails without both provisos: the
greedy span regex swallows stray closers in the prose, and backtick
content inside a JSON string value can make the fenced regex fire inside
the JSON, so that the fenced branch raises an uncaught decode error. -/
theorem invoke_json_recovers_wrapped_json :
    (∀ (pre j post : String) (v : Json),
      (∀ c ∈ pre.data, c ≠ '\x7b' ∧ c ≠ '\x5b' ∧ c ≠ '\x60') →
      (∀ c ∈ post.data, c ≠ '\x7d' ∧ c ≠ '\x5d' ∧ c ≠ '\x60') →
      (∀ c ∈ j.data, c ≠ '\x60') →
      ((∃ mid, j.data = '\x7b' :: (mid ++ ['\x7d'])) ∨
        (∃ mid, j.data = '\x5b' :: (mid ++ ['\x5d']))) →
      json_loads j = some v →
      json_loads (pre ++ j ++ post) = none →
      invokeJsonExtract (pre ++ j ++ post) = .ok v) ∧
    (∀ (pre ws1 j ws2 post : String) (v : Json),
      (∀ c ∈ pre.data, c ≠ '\x60') →
      (∀ c ∈ ws1.data, reWs c = true) →
      (∀ c ∈ ws2.data, reWs c = true) →
      (∀ c ∈ j.data, c ≠ '\x60') →
      ((∃ mid, j.data = '\x7b' :: (mid ++ ['\x7d'])) ∨
        (∃ mid, j.data = '\x5b' :: (mid ++ ['\x5d']))) →
      json_loads j = some v →
      json_loads (pre ++ "```json" ++ ws1 ++ j ++ ws2 ++ "```" ++ post) = none →
      invokeJsonExtract (pre ++ "```json" ++ ws1 ++ j ++ ws2 ++ "```" ++ post) = .ok v) :=
  ⟨fun pre j post v h1 h2 h3 h4 h5 h6 =>
      extraction_recovers_prose_wrapped pre j post v h1 h2 h3 h4 h5 h6,
    fun pre ws1 j ws2 post v h1 h2 h3 h4 h5 h6 h7 =>
      extraction_recovers_fence_wrapped pre ws1 j ws2 post v h1 h2 h3 h4 h5 h6 h7⟩

/-- Witness for C1: both parts of the theorem applied at concrete inputs —
prose-wrapped and fence-wrapped occurrences of the object `{"a": 1}`. -/
theorem invoke_json_recovers_wrapped_json_witness :
    invokeJsonExtract ("Sure: " ++ "\x7b\x22a\x22: 1\x7d" ++ " thanks") =
      .ok (.obj [("a", .num 1)]) ∧
    invokeJsonExtract ("" ++ "```json" ++ "\n" ++ "\x7b\x22a\x22: 1\x7d" ++ "\n" ++ "```" ++ " after") =
      .ok (.obj [("a", .num 1)]) :=
  ⟨invoke_json_recovers_wrapped_json.1 "Sure: " "\x7b\x22a\x22: 1\x7d" " thanks"
      (.obj [("a", .num 1)]) (by decide) (by decide) (by decide)
      (Or.inl ⟨"\x22a\x22: 1".data, rfl⟩) rfl rfl,
    invoke_json_recovers_wrapped_json.2 "" "\n" "\x7b\x22a\x22: 1\x7d" "\n" " after"
      (.obj [("a", .num 1)]) (by decide) (by decide) (by decide) (by decide)
      (Or.inl ⟨"\x22a\x22: 1".data, rfl⟩) rfl rfl⟩

/-- Counterexample to C1 as stated, in two failure modes.  First, the raw
text wraps the valid JSON object `{"a": 1}` in prose containing a stray
closing brace: the greedy span regex captures up to the last closer, the
fragment fails to parse, and `_invoke_json` raises the fragment-invalid
`ValueError` instead of returning the parsed value.  Second, a valid JSON
object whose string value contains fence-like backtick content, wrapped
in prose with no brace, bracket or backtick characters at all: the fenced
regex matches **inside** the JSON string value, its captured group fails
to parse, and `return json.loads(fenced.group(1))` raises an uncaught
`JSONDecodeError`. -/
theorem invoke_json_prose_counterexample :
    json_loads "\x7b\x22a\x22: 1\x7d" = some (.obj [("a", .num 1)]) ∧
    invokeJsonExtract "x \x7b\x22a\x22: 1\x7d y \x7d z" =
      .error (.fragmentInvalid "\x7b\x22a\x22: 1\x7d y \x7d") ∧
    json_loads "\x7b\x22a\x22: \x22```json \x7bx\x7d ```\x22\x7d" =
      some (.obj [("a", .str "```json \x7bx\x7d ```")]) ∧
    invokeJsonExtract "Sure: \x7b\x22a\x22: \x22```json \x7bx\x7d ```\x22\x7d thanks" =
      .error .fencedDecodeError :=
  ⟨rfl, rfl, rfl, rfl⟩

/-- C2 (confirmed).  On raw output with no JSON-like substring — not
directly parseable and containing no brace- or bracket-delimited span —
`_invoke_json` raises exactly the final `ValueError` carrying the first
200 characters of the raw text, and no other parse exception: the fenced
branch cannot fire when no span exists. -/
theorem invoke_json_malformed_on_non_json (raw : String)
    (hdirect : json_loads raw = none)
    (hspan : greedySpan raw.data = none) :
    invokeJsonExtract raw = .error (.malformed (firstChars 200 raw)) := by
  simp only [invokeJsonExtract, hdirect,
    fencedSearch_none_of_no_span raw.data hspan, hspan]

/-- Witness for C2 at a concrete prose-only model reply. -/
theorem invoke_json_malformed_on_non_json_witness :
    json_loads "The weather is sunny." = none ∧
    greedySpan "The weather is sunny.".data = none ∧
    invokeJsonExtract "The weather is sunny." =
      .error (.malformed (firstChars 200 "The weather is sunny.")) :=
  ⟨rfl, rfl, invoke_json_malformed_on_non_json "The weather is sunny." rfl rfl⟩

theorem asStrList_map_str (xs : List String) : asStrList (xs.map Json.str) = some xs := by
  induction xs with
  | nil => rfl
  | cons x xs ih => simp [asStrList, asStr, ih]

/-- C3 (corrected).  No deduplication or trimming happens anywhere in
validation: every list-valued field of `CanonicalProfile` and
`TailorResponse` is accepted exactly as given, first to last, duplicates
included. -/
theorem validation_preserves_lists_verbatim :
    (∀ xs : List String,
      validateCanonicalProfile (.obj [("skills", .arr (xs.map .str))]) =
        some ⟨none, none, none, xs, [], []⟩) ∧
    (∀ bs rs fs : List String,
      validateTailorResponse (.obj [("bullets", .arr (bs.map .str)),
          ("removed", .arr (rs.map .str)), ("focus", .arr (fs.map .str))]) =
        some ⟨bs, rs, fs⟩) := by
  constructor
  · intro xs
    simp [validateCanonicalProfile, optStrField, strListField, itemListField,
      getField, asStrList_map_str]
  · intro bs rs fs
    simp [validateTailorResponse, strListField, getField, asStrList_map_str]

/-- Counterexample to C3 as stated: a `CanonicalProfile` whose `skills`
list holds the same trimmed entry twice passes validation unchanged, so a
validated profile can contain duplicate skills. -/
theorem skills_duplicates_accepted :
    validateCanonicalProfile (.obj [("skills", .arr [.str "python", .str "python"])]) =
      some ⟨none, none, none, ["python", "python"], [], []⟩ ∧
    ¬ (["python", "python"] : List String).Nodup :=
  ⟨rfl, by decide⟩

/-- C4 (corrected).  `TailorResponse.bullets` is declared without any
length constraint: a bullets list of every length — 5, but also 3 and
7 — passes validation unchanged. -/
theorem tailor_accepts_any_bullet_count (bs : List String) :
    validateTailorResponse (.obj [("bullets", .arr (bs.map .str))]) =
      some ⟨bs, [], []⟩ := by
  simp [validateTailorResponse, strListField, getField, asStrList_map_str]

/-- Witness for C4 at a bullets list of length 5. -/
theorem tailor_accepts_any_bullet_count_witness :
    validateTailorResponse (.obj [("bullets",
        .arr [.str "b1", .str "b2", .str "b3", .str "b4", .str "b5"])]) =
      some ⟨["b1", "b2", "b3", "b4", "b5"], [], []⟩ :=
  tailor_accepts_any_bullet_count ["b1", "b2", "b3", "b4", "b5"]

/-- Counterexample to C4 as stated: payloads with 3 and with 7 bullets are
both accepted, not rejected. -/
theorem tailor_bullet_bound_counterexample :
    validateTailorResponse (.obj [("bullets", .arr [.str "b1", .str "b2", .str "b3"])]) =
      some ⟨["b1", "b2", "b3"], [], []⟩ ∧
    validateTailorResponse (.obj [("bullets",
        .arr [.str "b1", .str "b2", .str "b3", .str "b4", .str "b5", .str "b6", .str "b7"])]) =
      some ⟨["b1", "b2", "b3", "b4", "b5", "b6", "b7"], [], []⟩ :=
  ⟨rfl, rfl⟩

/-- C5 (code bug).  `AnalyzeResponse.quality` carries `ge=0, le=100` and
rejects out-of-range values as claimed, but `ATSScoreResponse.score` —
documented in its own docstring and field description as an ATS score
between 0 and 100 — is declared without any bound, so validation accepts
`score`: 150 and `score`: -3 in contradiction with the documentation. -/
theorem ats_score_range_not_enforced :
    validateAnalyzeResponse (.obj [("quality", .num 150)]) = none ∧
    validateAnalyzeResponse (.obj [("quality", .num (-1))]) = none ∧
    validateATSScoreResponse (.obj [("score", .num 150)]) = some ⟨150, [], [], []⟩ ∧
    validateATSScoreResponse (.obj [("score", .num (-3))]) = some ⟨-3, [], [], []⟩ :=
  ⟨rfl, rfl, rfl, rfl⟩

/-- C6 (confirmed).  Exactly one model round trip per task invocation:
`_invoke_json` consults the model oracle once whatever the extraction
outcome, and the analyze-handler flow makes exactly one call whether
extraction or validation fails or succeeds — no retry path exists. -/
theorem single_model_round_trip (respond : Nat → String) :
    invokeJsonCounted respond = (invokeJsonExtract (respond 0), 1) ∧
    (analyzeHandlerCounted respond).2 = 1 := by
  constructor
  · rfl
  · simp only [analyzeHandlerCounted, ainvokeTextCounted]
    cases hx : invokeJsonExtract (respond 0) with
    | error e => simp [hx]
    | ok j =>
      cases hv : validateAnalyzeResponse j with
      | none => simp [hx, hv]
      | some r => simp [hx, hv]

/-- C7 (confirmed).  The prompt serializer `_dump` is a pure total
function: `None` becomes the empty string, a string passes through
unchanged, and a dict becomes its `json.dumps(..., ensure_ascii=False,
indent=2)` serialization (shown concretely on a two-field profile). -/
theorem dump_serializer_spec :
    dump .pyNone = "" ∧
    (∀ s : String, dump (.pyStr s) = s) ∧
    (∀ j : Json, dump (.pyDict j) = json_dumps_indent2 j) ∧
    dump (.pyDict (.obj [("name", .str "Ada"), ("skills", .arr [.str "python"])])) =
      "\x7b\n  \x22name\x22: \x22Ada\x22,\n  \x22skills\x22: \x5b\n    \x22python\x22\n  \x5d\n\x7d" :=
  ⟨rfl, fun _ => rfl, fun _ => rfl, rfl⟩

/-- C8 (confirmed).  A `/chat` request whose message is empty or
whitespace-only is answered with HTTP 400 and detail "Message cannot be
empty." before any model call: the call counter stays at zero. -/
theorem chat_rejects_blank_message (respond : Nat → Except String String)
    (req : ChatRequest) (h : req.message.data.all pyWs = true) :
    chatHandler respond req = (.httpError 400 "Message cannot be empty.", 0) := by
  simp [chatHandler, h]

/-- Witness for C8 at a whitespace-only message. -/
theorem chat_rejects_blank_message_witness :
    chatHandler (fun _ => .ok "advice") ⟨" \t", none, none⟩ =
      (.httpError 400 "Message cannot be empty.", 0) :=
  chat_rejects_blank_message (fun _ => .ok "advice") ⟨" \t", none, none⟩ (by decide)

/-- C9 (confirmed).  `_require_one` accepts exactly when `resume_text` is
a non-empty string or `canonical` is present, and otherwise rejects with
the error naming both fields; through full request validation, a body
with only `job_description` is rejected with that message and a body
with a non-empty `resume_text` is accepted. -/
theorem ats_request_requires_one_source :
    (∀ r : ATSScoreRequest,
      (requireOne r = .ok r ↔
        (∃ s, r.resume_text = some s ∧ s ≠ "") ∨ (∃ c, r.canonical = some c)) ∧
      (requireOne r = .ok r ∨
        requireOne r = .error "Provide \x27resume_text\x27 or \x27canonical\x27.")) ∧
    (∀ jd : String,
      validateATSScoreRequest (.obj [("job_description", .str jd)]) =
        .error "Provide \x27resume_text\x27 or \x27canonical\x27.") ∧
    (∀ jd rt : String, rt ≠ "" →
      validateATSScoreRequest (.obj [("resume_text", .str rt),
          ("job_description", .str jd)]) = .ok ⟨some rt, none, jd⟩) := by
  refine ⟨?_, ?_, ?_⟩
  · rintro ⟨rt, cn, jd⟩
    cases rt with
    | none =>
      cases cn with
      | none => simp [requireOne, pyTruthyOptStr]
      | some c => simp [requireOne, pyTruthyOptStr]
    | some str =>
      cases cn with
      | none =>
        by_cases hs : str = ""
        · subst hs
          simp [requireOne, pyTruthyOptStr, show ("" : String).isEmpty = true from rfl]
        · simp [requireOne, pyTruthyOptStr, String.isEmpty_iff, hs]
      | some c => simp [requireOne, pyTruthyOptStr, String.isEmpty_iff]
  · intro jd
    simp [validateATSScoreRequest, optStrField, reqStrField, getField,
      requireOne, pyTruthyOptStr]
  · intro jd rt hrt
    simp [validateATSScoreRequest, optStrField, reqStrField, getField,
      requireOne, pyTruthyOptStr, String.isEmpty_iff, hrt]

/-- Witness for C9: both-absent is rejected with the two-field message,
and a non-empty `resume_text` alone is accepted. -/
theorem ats_request_requires_one_source_witness :
    validateATSScoreRequest (.obj [("job_description", .str "Build APIs")]) =
      .error "Provide \x27resume_text\x27 or \x27canonical\x27." ∧
    validateATSScoreRequest (.obj [("resume_text", .str "resume body"),
        ("job_description", .str "Build APIs")]) =
      .ok ⟨some "resume body", none, "Build APIs"⟩ :=
  ⟨ats_request_requires_one_source.2.1 "Build APIs",
    ats_request_requires_one_source.2.2 "Build APIs" "resume body" (by decide)⟩

/-- C10 (confirmed).  `Resume.add_skill` preserves duplicate-freedom, is a
no-op on an already-present skill, is idempotent, and never touches any
field other than `skills`. -/
theorem add_skill_properties (r : Resume) (skill : String) :
    (r.skills.Nodup → ((r.add_skill skill).skills).Nodup) ∧
    (skill ∈ r.skills → r.add_skill skill = r) ∧
    ((r.add_skill skill).add_skill skill = r.add_skill skill) ∧
    ((r.add_skill skill).name = r.name ∧
      (r.add_skill skill).contact_info = r.contact_info ∧
      (r.add_skill skill).education = r.education ∧
      (r.add_skill skill).experience = r.experience) := by
  by_cases h : skill ∈ r.skills
  · simp [Resume.add_skill, h]
  · refine ⟨?_, ?_, ?_, ?_⟩
    · intro hnd
      simp only [Resume.add_skill, if_neg h]
      simp [List.nodup_append, hnd, List.disjoint_singleton, h]
    · intro hmem
      exact absurd hmem h
    · simp only [Resume.add_skill, if_neg h]
      rw [if_pos (by simp)]
    · simp [Resume.add_skill, if_neg h]

/-- Witness for C10 at a concrete resume: adding a fresh skill keeps the
list duplicate-free, and re-adding an existing skill changes nothing. -/
theorem add_skill_properties_witness :
    ((Resume.mk "Ada" "ada at example" [] [] ["python"]).add_skill "sql").skills.Nodup ∧
    (Resume.mk "Ada" "ada at example" [] [] ["python"]).add_skill "python" =
      Resume.mk "Ada" "ada at example" [] [] ["python"] :=
  ⟨(add_skill_properties (Resume.mk "Ada" "ada at example" [] [] ["python"]) "sql").1
      (by decide),
    (add_skill_properties (Resume.mk "Ada" "ada at example" [] [] ["python"]) "python").2.1
      (by decide)⟩

end ChatbotService
